import Mathlib

/-!
Shallow embedding of the in-memory coordination layer: the node cache
(src/libkbfs/node_cache.go), the block retrieval queue (src/unnamed/part_000)
and the log registration service (src/go/service/log_register.go).

Go pointers to heap-allocated nodes / retrieval records are modelled by
natural-number ids together with an explicit store (a total function from ids
to records); Go maps are modelled by functions into Option; mutation is
explicit state passing.
-/

/-- Opaque, comparable content address (Go BlockPointer). -/
structure BlockPointer where
  id : Nat
deriving DecidableEq

/-- One step of a path: Go PathNode, i.e. a BlockPointer plus a name. -/
structure PathNode where
  ptr : BlockPointer
  name : String
deriving DecidableEq

/-- Go type path: an ordered sequence of PathNodes tagged with the owning
TLF id and branch name.  TlfID is modelled as Nat, BranchName as String. -/
structure path where
  tlf : Nat
  branch : String
  path : List PathNode
deriving DecidableEq

/-- The zero value of the Go path type. -/
def pathZero : path := { tlf := 0, branch := "", path := [] }

/-- A Go Node interface value: nil, a pointer to a nodeStandard (identified by
its id in the node store), or a value of some other dynamic type (for which the
type assertion to *nodeStandard fails). -/
inductive GoNode where
  | nil
  | std (id : Nat)
  | other (k : Nat)
deriving DecidableEq

/-- The mutable fields of a nodeStandard: its pathNode (pointer and name),
its parent Node, and the frozen cachedPath set at unlink time. -/
structure nodeStandard where
  pathNode : PathNode
  parent : GoNode
  cachedPath : path
deriving DecidableEq

/-- Go nodeCacheEntry: a node (by id) together with its reference count. -/
structure nodeCacheEntry where
  node : Nat
  refCount : Int
deriving DecidableEq

/-- The distinguished error for a stale or missing parent handle,
carrying the offending pointer. -/
structure ParentNodeNotFoundError where
  ptr : BlockPointer
deriving DecidableEq

/-- State of a nodeCacheStandard: the TLF id and branch it was constructed
with, the pointer-to-entry map, plus the store of allocated nodeStandard
objects (heapN) and an allocation counter. -/
structure NCState where
  id : Nat
  branch : String
  nodes : BlockPointer → Option nodeCacheEntry
  heapN : Nat → nodeStandard
  nextId : Nat

/-- Pointwise map update (Go map assignment / delete). -/
def upd {β : Type} (f : BlockPointer → β) (k : BlockPointer) (v : β) :
    BlockPointer → β :=
  fun q => if q = k then v else f q

/-- Pointwise store update at a Nat key. -/
def updN {β : Type} (f : Nat → β) (k : Nat) (v : β) : Nat → β :=
  fun q => if q = k then v else f q

/-- newNodeCacheStandard: empty map, fresh allocation counter. -/
def newNodeCacheStandard (id : Nat) (branch : String) : NCState :=
  { id := id, branch := branch, nodes := fun _ => none,
    heapN := fun _ => { pathNode := { ptr := ⟨0⟩, name := "" },
                        parent := GoNode.nil, cachedPath := pathZero },
    nextId := 0 }

/-- Modelled from the spec: the nodeStandard constructor newNodeStandard lives
in node_standard.go, which is not among the provided sources.  Per the spec's
node record (section 3), a freshly created node stores its identifying pointer
and name, its parent reference, and an empty cachedPath (cachedPath is
populated only at unlink time). -/
def newNodeStandard (ptr : BlockPointer) (name : String) (parent : GoNode) :
    nodeStandard :=
  { pathNode := { ptr := ptr, name := name }, parent := parent,
    cachedPath := pathZero }

/-- forgetLocked: decrement the entry for the node's pointer, deleting it when
the count reaches zero; no-op on a non-nodeStandard handle, a missing entry, or
a stale handle (entry.node different from the given node). -/
def forgetLocked (s : NCState) (node : GoNode) : NCState :=
  match node with
  | .std nid =>
    let ptr := (s.heapN nid).pathNode.ptr
    match s.nodes ptr with
    | none => s
    | some entry =>
      if entry.node ≠ nid then s
      else
        let rc := entry.refCount - 1
        if rc ≤ 0 then { s with nodes := upd s.nodes ptr none }
        else { s with nodes := upd s.nodes ptr (some { entry with refCount := rc }) }
  | _ => s

/-- forget: the exported wrapper simply takes the lock and calls forgetLocked. -/
def forget (s : NCState) (node : GoNode) : NCState :=
  forgetLocked s node

/-- newChildForParentLocked: increment the reference count of the entry
registered for the parent handle's pointer.  Note the Go guard
`if parent != pNodeStandard` compares the interface value against the result of
its own successful type assertion, so it can never fire; it is transcribed
literally below. -/
def newChildForParentLocked (s : NCState) (parent : GoNode) :
    Except ParentNodeNotFoundError NCState :=
  match parent with
  | .std pid =>
    let ptr := (s.heapN pid).pathNode.ptr
    match s.nodes ptr with
    | none => .error ⟨ptr⟩
    | some pEntry =>
      if GoNode.std pid ≠ GoNode.std pid then .error ⟨ptr⟩
      else .ok { s with
        nodes := upd s.nodes ptr (some { pEntry with refCount := pEntry.refCount + 1 }) }
  | _ => .error ⟨⟨0⟩⟩

/-- GetOrCreate: fast path under the read lock increments an existing entry's
count; otherwise, under the write lock, re-check, then (for a non-nil parent)
increment the parent's count via newChildForParentLocked, and insert a fresh
node with count 1. -/
def GetOrCreate (s : NCState) (ptr : BlockPointer) (name : String)
    (parent : GoNode) : Except ParentNodeNotFoundError GoNode × NCState :=
  match s.nodes ptr with
  | some entry =>
    (.ok (.std entry.node),
     { s with nodes := upd s.nodes ptr (some { entry with refCount := entry.refCount + 1 }) })
  | none =>
    -- after taking the write lock, check again to make sure
    match s.nodes ptr with
    | some entry =>
      (.ok (.std entry.node),
       { s with nodes := upd s.nodes ptr (some { entry with refCount := entry.refCount + 1 }) })
    | none =>
      let afterParent : Except ParentNodeNotFoundError NCState :=
        match parent with
        | .nil => .ok s
        | _ => newChildForParentLocked s parent
      match afterParent with
      | .error e => (.error e, s)
      | .ok s1 =>
        let nid := s1.nextId
        (.ok (.std nid),
         { s1 with
            heapN := updN s1.heapN nid (newNodeStandard ptr name parent),
            nextId := s1.nextId + 1,
            nodes := upd s1.nodes ptr (some { node := nid, refCount := 1 }) })

/-- GetWithoutReference: pure lookup under the read lock; second component is
the (unchanged) state. -/
def GetWithoutReference (s : NCState) (ptr : BlockPointer) : GoNode × NCState :=
  match s.nodes ptr with
  | none => (.nil, s)
  | some entry => (.std entry.node, s)

/-- UpdatePointer: re-key an existing entry, mutating the node's stored
pointer, deleting the old key and inserting the new one (in that order);
no-op when oldPtr has no entry. -/
def UpdatePointer (s : NCState) (oldPtr newPtr : BlockPointer) : NCState :=
  match s.nodes oldPtr with
  | none => s
  | some entry =>
    let ns := s.heapN entry.node
    let s1 := { s with
      heapN := updN s.heapN entry.node { ns with pathNode := { ns.pathNode with ptr := newPtr } } }
    { s1 with nodes := upd (upd s1.nodes oldPtr none) newPtr (some entry) }

/-- Move: on a present entry, increment the new parent (may fail), then forget
the old parent (if non-nil), then rewrite the node's parent and name.  On a
missing entry, return success untouched. -/
def Move (s : NCState) (ptr : BlockPointer) (newParent : GoNode)
    (newName : String) : Option ParentNodeNotFoundError × NCState :=
  match s.nodes ptr with
  | none => (none, s)
  | some entry =>
    match newChildForParentLocked s newParent with
    | .error e => (some e, s)
    | .ok s1 =>
      let oldParent := (s1.heapN entry.node).parent
      let s2 := if oldParent ≠ GoNode.nil then forgetLocked s1 oldParent else s1
      let ns := s2.heapN entry.node
      let ns1 := { ns with parent := newParent, pathNode := { ns.pathNode with name := newName } }
      (none, { s2 with heapN := updN s2.heapN entry.node ns1 })

/-- Unlink: freeze oldPath into the node's cachedPath, forget the old parent
(if non-nil), then clear the node's parent and name.  No-op on a missing
entry. -/
def Unlink (s : NCState) (ptr : BlockPointer) (oldPath : path) : NCState :=
  match s.nodes ptr with
  | none => s
  | some entry =>
    let ns0 := s.heapN entry.node
    let s1 := { s with heapN := updN s.heapN entry.node ({ ns0 with cachedPath := oldPath }) }
    let oldParent := (s1.heapN entry.node).parent
    let s2 := if oldParent ≠ GoNode.nil then forgetLocked s1 oldParent else s1
    let ns2 := s2.heapN entry.node
    let ns3 := { ns2 with parent := GoNode.nil, pathNode := { ns2.pathNode with name := "" } }
    { s2 with heapN := updN s2.heapN entry.node ns3 }

/-- The loop body of PathFromNode.  acc is the leaf-to-root accumulator p.path;
fuel bounds the walk (the Go loop has no bound; a cyclic parent chain would not
terminate there either).  Returns none only when fuel runs out. -/
def pathWalk (s : NCState) : Nat → GoNode → List PathNode → Option path
  | 0, _, _ => none
  | _ + 1, .nil, acc =>
    -- loop exit: reverse the accumulated nodes, stamp tlf and branch
    some { tlf := s.id, branch := s.branch, path := acc.reverse }
  | _ + 1, .other _, _ =>
    -- failed type assertion: p.path = nil, early return (tlf/branch zero)
    some pathZero
  | fuel + 1, .std nid, acc =>
    let ns := s.heapN nid
    if ns.parent = GoNode.nil ∧ 0 < ns.cachedPath.path.length then
      -- unlinked but still in use: splice in the frozen path
      if acc.length = 0 then some ns.cachedPath
      else some { tlf := s.id, branch := s.branch,
                  path := (acc ++ ns.cachedPath.path.reverse).reverse }
    else
      pathWalk s fuel ns.parent (acc ++ [ns.pathNode])

/-- PathFromNode: walk parent references from the node to the root under the
read lock; the state is returned unchanged. -/
def PathFromNode (s : NCState) (node : GoNode) (fuel : Nat) :
    Option path × NCState :=
  (pathWalk s fuel node [], s)

theorem upd_same {β : Type} (f : BlockPointer → β) (k : BlockPointer) (v : β) :
    upd f k v k = v := by
  simp [upd]

theorem upd_ne {β : Type} (f : BlockPointer → β) (k : BlockPointer) (v : β)
    (q : BlockPointer) (h : q ≠ k) : upd f k v q = f q := by
  simp [upd, h]

theorem updN_same {β : Type} (f : Nat → β) (k : Nat) (v : β) :
    updN f k v k = v := by
  simp [updN]

theorem updN_ne {β : Type} (f : Nat → β) (k : Nat) (v : β) (q : Nat)
    (h : q ≠ k) : updN f k v q = f q := by
  simp [updN, h]

/-- One pending requester of a block: its context, destination buffer and
one-shot delivery channel, each modelled by an opaque id. -/
structure blockRetrievalRequest where
  ctx : Nat
  block : Nat
  doneCh : Nat
deriving DecidableEq

/-- One coalesced in-flight retrieval of a single block pointer.  The index
field is the record's heap position in Go; the heap is modelled as a bag, so
the field keeps its initial value -1. -/
structure blockRetrieval where
  blockPtr : BlockPointer
  index : Int
  priority : Int
  insertionOrder : Nat
  requests : List blockRetrievalRequest
deriving DecidableEq

/-- State of a blockRetrievalQueue: the pointer-to-record map, the record
store with its allocation counter, the global insertion counter, the heap
(as a list of record ids), the list of records already handed to workers (in
hand-off order), and a counter for fresh one-shot channels. -/
structure QState where
  ptrs : BlockPointer → Option Nat
  recs : Nat → blockRetrieval
  nextRec : Nat
  insertionCount : Nat
  heap : List Nat
  dispatched : List Nat
  nextCh : Nat

/-- newBlockRetrievalQueue: empty map, empty heap, zeroed counters. -/
def newBlockRetrievalQueue : QState :=
  { ptrs := fun _ => none,
    recs := fun _ => { blockPtr := ⟨0⟩, index := -1, priority := 0,
                       insertionOrder := 0, requests := [] },
    nextRec := 0, insertionCount := 0, heap := [], dispatched := [],
    nextCh := 0 }

/-- Modelled from the spec: the Less method of blockRetrievalHeap is not among
the provided sources.  Per the spec, the heap orders first by priority (higher
first), then by insertion sequence (lower, i.e. earlier, first). -/
def heapLess (a b : blockRetrieval) : Bool :=
  decide (b.priority < a.priority) ||
    (decide (a.priority = b.priority) && decide (a.insertionOrder < b.insertionOrder))

/-- Modelled from the spec: Go's container/heap (standard library, not in the
sources) pops the least element under Less.  The heap is modelled as a bag and
popBest selects the id of the record that heap.Pop would return; among live
records insertion orders are distinct, so the selection is unambiguous. -/
def popBest (recs : Nat → blockRetrieval) : List Nat → Option Nat
  | [] => none
  | r :: rest =>
    match popBest recs rest with
    | none => some r
    | some b => if heapLess (recs r) (recs b) then some r else some b

/-- Request: if no record exists for ptr, create one (index -1, the given
priority, the next insertion sequence number), register it in the map, push it
onto the heap and schedule a worker notification; in both cases append a fresh
requester entry and raise the record's priority if the new request's priority
is strictly higher.  Returns the fresh one-shot channel. -/
def Request (s : QState) (ctx : Nat) (priority : Int) (ptr : BlockPointer)
    (block : Nat) : Nat × QState :=
  let ch := s.nextCh
  match s.ptrs ptr with
  | none =>
    let rid := s.nextRec
    let br : blockRetrieval :=
      { blockPtr := ptr, index := -1, priority := priority,
        insertionOrder := s.insertionCount, requests := [] }
    let br1 := { br with requests := br.requests ++ [{ ctx := ctx, block := block, doneCh := ch }] }
    let br2 := if br1.priority < priority then { br1 with priority := priority } else br1
    let s1 := { s with
      ptrs := upd s.ptrs ptr (some rid), recs := updN s.recs rid br2,
      nextRec := s.nextRec + 1, insertionCount := s.insertionCount + 1,
      heap := s.heap ++ [rid], nextCh := s.nextCh + 1 }
    (ch, s1)
  | some rid =>
    let br := s.recs rid
    let br1 := { br with requests := br.requests ++ [{ ctx := ctx, block := block, doneCh := ch }] }
    let br2 := if br1.priority < priority then { br1 with priority := priority } else br1
    (ch, { s with recs := updN s.recs rid br2, nextCh := s.nextCh + 1 })

/-- notifyWorker: the dispatcher task.  Under the lock it pops the best record
off the heap and hands it to the waiting worker (appended to dispatched).  The
map is not touched.  (In Go a notification is spawned once per insertion, so
the heap is never empty when it runs; a run on an empty heap is a no-op
here.) -/
def notifyWorker (s : QState) : QState :=
  match popBest s.recs s.heap with
  | none => s
  | some d => { s with heap := s.heap.erase d, dispatched := s.dispatched ++ [d] }

/-- FinalizeRequest: delete the pointer's entry from the map. -/
def FinalizeRequest (s : QState) (ptr : BlockPointer) : QState :=
  { s with ptrs := upd s.ptrs ptr none }

/-- The observable events of the queue: a Request call, a dispatcher hand-off
(notifyWorker's locked section), and a FinalizeRequest call. -/
inductive QEv where
  | req (ctx : Nat) (priority : Int) (ptr : BlockPointer) (block : Nat)
  | dispatch
  | finalize (ptr : BlockPointer)

/-- One step of the queue's step relation. -/
def stepQ (s : QState) : QEv → QState
  | .req c p ptr b => (Request s c p ptr b).2
  | .dispatch => notifyWorker s
  | .finalize ptr => FinalizeRequest s ptr

/-- Run a sequence of events from a state. -/
def runQ (s : QState) (evs : List QEv) : QState :=
  evs.foldl stepQ s

/-- The state reached from a fresh queue by a sequence of events. -/
def qReach (evs : List QEv) : QState :=
  runQ newBlockRetrievalQueue evs

/-- A registered log queue (name, level, the LogUI connection). -/
structure logQueue where
  name : String
  level : Nat
  ui : Nat
deriving DecidableEq

/-- State of a logRegister: the currently recorded queue (nil or set) and the
forwarder's list of registered queues.  Modelled from the spec: logFwd and
logQueue live outside the provided sources; the forwarder is the minimal
listener list with Add appending and Remove deleting a queue. -/
structure logRegisterState where
  queue : Option logQueue
  forwarder : List logQueue
deriving DecidableEq

/-- newLogRegister: no queue registered yet. -/
def newLogRegister : logRegisterState :=
  { queue := none, forwarder := [] }

/-- RegisterLogger: error if a queue is already recorded; otherwise create a
new log queue, record it and add it to the forwarder. -/
def RegisterLogger (s : logRegisterState) (name : String) (level : Nat)
    (ui : Nat) : Option String × logRegisterState :=
  match s.queue with
  | some _ => (some "logger already registered", s)
  | none =>
    let q : logQueue := { name := name, level := level, ui := ui }
    (none, { s with queue := some q, forwarder := s.forwarder ++ [q] })

/-- UnregisterLogger: no-op when no queue is recorded; otherwise remove the
queue from the forwarder.  The recorded queue field itself is not cleared in
the source. -/
def UnregisterLogger (s : logRegisterState) : logRegisterState :=
  match s.queue with
  | none => s
  | some q => { s with forwarder := s.forwarder.erase q }

/-- A one-entry cache: pointer 1 is cached as node 0 with reference count 1. -/
def sOne : NCState :=
  { id := 0, branch := "",
    nodes := upd (fun _ => none) ⟨1⟩ (some { node := 0, refCount := 1 }),
    heapN := fun _ => { pathNode := { ptr := ⟨1⟩, name := "a" },
                        parent := GoNode.nil, cachedPath := pathZero },
    nextId := 1 }

/-- A cache holding pointer 1 (as node 1) and pointer 2 (as node 0), while the
node store also holds node 2, a stale handle whose pathNode pointer is 1 even
though the cache records node 1 for pointer 1. -/
def sStale : NCState :=
  { id := 0, branch := "",
    nodes := upd (upd (fun _ => none) ⟨1⟩ (some { node := 1, refCount := 1 }))
               ⟨2⟩ (some { node := 0, refCount := 1 }),
    heapN := fun n =>
      if n = 0 then { pathNode := { ptr := ⟨2⟩, name := "c" },
                      parent := GoNode.nil, cachedPath := pathZero }
      else { pathNode := { ptr := ⟨1⟩, name := "a" },
             parent := GoNode.nil, cachedPath := pathZero },
    nextId := 3 }

/-- Claim C10: for a pointer with no cache entry, Move returns nil (success)
and leaves the whole cache state unchanged, without validating the newParent
handle in any way. -/
theorem move_missing_pointer_noop (s : NCState) (ptr : BlockPointer)
    (newParent : GoNode) (newName : String) (h : s.nodes ptr = none) :
    Move s ptr newParent newName = (none, s) := by
  simp [Move, h]

theorem move_missing_pointer_noop_witness :
    Move (newNodeCacheStandard 0 "") ⟨1⟩ (GoNode.other 0) "x" =
      (none, newNodeCacheStandard 0 "") :=
  move_missing_pointer_noop (newNodeCacheStandard 0 "") ⟨1⟩ (GoNode.other 0) "x" rfl

/-- Claim C1 (code bug): a Move whose newParent is a stale handle (node 2
claims pointer 1, but the cache currently records node 1 for pointer 1) is
supposed to fail with ParentNotFound and change nothing; instead it returns
success, increments the reference count of the entry registered for pointer 1
(the entry of a different node) and reparents the moved node under the stale
handle.  The guard `if parent != pNodeStandard` in newChildForParentLocked
compares the interface value with its own successful cast and can never fire. -/
theorem move_stale_parent_divergence :
    sStale.nodes ⟨1⟩ = some { node := 1, refCount := 1 } ∧
    (sStale.heapN 2).pathNode.ptr = ⟨1⟩ ∧
    (Move sStale ⟨2⟩ (GoNode.std 2) "x").1 = none ∧
    (Move sStale ⟨2⟩ (GoNode.std 2) "x").2.nodes ⟨1⟩ =
      some { node := 1, refCount := 2 } ∧
    ((Move sStale ⟨2⟩ (GoNode.std 2) "x").2.heapN 0).parent = GoNode.std 2 := by
  refine ⟨rfl, rfl, rfl, rfl, rfl⟩

/-- Claim C4 counterexample: with oldPointer = newPointer, UpdatePointer
re-inserts the entry under the same key, so a subsequent lookup on the old
pointer still returns the node (it is not absent, as the claim requires for
every pair of pointers). -/
theorem updatePointer_same_ptr_cex :
    sOne.nodes ⟨1⟩ = some { node := 0, refCount := 1 } ∧
    (GetWithoutReference (UpdatePointer sOne ⟨1⟩ ⟨1⟩) ⟨1⟩).1 = GoNode.std 0 := by
  refine ⟨rfl, rfl⟩

/-- Claim C4 (amended: for oldPointer distinct from newPointer): UpdatePointer
re-keys an existing entry — the old key becomes absent, the new key holds the
same entry (same node id, same reference count) with the node's stored pointer
mutated to the new pointer — and is a no-op when the old key has no entry. -/
theorem updatePointer_rekeys (s : NCState) (oldPtr newPtr : BlockPointer) :
    (s.nodes oldPtr = none → UpdatePointer s oldPtr newPtr = s) ∧
    (∀ e, s.nodes oldPtr = some e → oldPtr ≠ newPtr →
      (UpdatePointer s oldPtr newPtr).nodes oldPtr = none ∧
      (UpdatePointer s oldPtr newPtr).nodes newPtr = some e ∧
      ((UpdatePointer s oldPtr newPtr).heapN e.node).pathNode.ptr = newPtr ∧
      (GetWithoutReference (UpdatePointer s oldPtr newPtr) oldPtr).1 = GoNode.nil ∧
      (GetWithoutReference (UpdatePointer s oldPtr newPtr) newPtr).1 = GoNode.std e.node) := by
  constructor
  · intro h
    simp [UpdatePointer, h]
  · intro e he hne
    have h1 : (UpdatePointer s oldPtr newPtr).nodes oldPtr = none := by
      simp [UpdatePointer, he, upd, hne]
    have h2 : (UpdatePointer s oldPtr newPtr).nodes newPtr = some e := by
      simp [UpdatePointer, he, upd]
    refine ⟨h1, h2, ?_, ?_, ?_⟩
    · simp [UpdatePointer, he, updN]
    · simp [GetWithoutReference, h1]
    · simp [GetWithoutReference, h2]

theorem updatePointer_rekeys_witness :
    (UpdatePointer sOne ⟨1⟩ ⟨2⟩).nodes ⟨2⟩ = some { node := 0, refCount := 1 } :=
  ((updatePointer_rekeys sOne ⟨1⟩ ⟨2⟩).2 { node := 0, refCount := 1 } rfl
    (by decide)).2.1

/-- Claim C8 counterexample: the fast path of GetOrCreate (entry already
present, shared lock only) increments the matched entry's reference count, so
it does not leave every entry's reference count unchanged. -/
theorem getOrCreate_fast_path_mutates_cex :
    sOne.nodes ⟨1⟩ = some { node := 0, refCount := 1 } ∧
    (GetOrCreate sOne ⟨1⟩ "a" GoNode.nil).2.nodes ⟨1⟩ =
      some { node := 0, refCount := 2 } := by
  refine ⟨rfl, rfl⟩

/-- Claim C8 (amended): GetWithoutReference and PathFromNode leave the state
unchanged, and the fast path of GetOrCreate leaves the node store, the
allocation counter and every other map entry unchanged, returning the existing
node — but it does increment the matched entry's reference count. -/
theorem read_lock_ops_frame (s : NCState) (ptr : BlockPointer) (name : String)
    (parent node : GoNode) (fuel : Nat) (e : nodeCacheEntry)
    (h : s.nodes ptr = some e) :
    (GetWithoutReference s ptr).2 = s ∧
    (PathFromNode s node fuel).2 = s ∧
    (GetOrCreate s ptr name parent).1 = Except.ok (GoNode.std e.node) ∧
    (GetOrCreate s ptr name parent).2.heapN = s.heapN ∧
    (GetOrCreate s ptr name parent).2.nextId = s.nextId ∧
    (∀ q, q ≠ ptr → (GetOrCreate s ptr name parent).2.nodes q = s.nodes q) ∧
    (GetOrCreate s ptr name parent).2.nodes ptr =
      some { e with refCount := e.refCount + 1 } := by
  refine ⟨?_, rfl, ?_, ?_, ?_, ?_, ?_⟩
  · unfold GetWithoutReference
    rw [h]
  · simp [GetOrCreate, h]
  · simp [GetOrCreate, h]
  · simp [GetOrCreate, h]
  · intro q hq
    simp [GetOrCreate, h, upd, hq]
  · simp [GetOrCreate, h, upd]

theorem read_lock_ops_frame_witness :
    (GetWithoutReference sOne ⟨1⟩).2 = sOne :=
  (read_lock_ops_frame sOne ⟨1⟩ "a" GoNode.nil GoNode.nil 0
    { node := 0, refCount := 1 } rfl).1

/-- Claim C9 counterexample: register, then unregister, then register again —
the second registration still fails with the "already registered" error,
because UnregisterLogger never clears the recorded queue. -/
theorem register_after_unregister_cex :
    (RegisterLogger (UnregisterLogger (RegisterLogger newLogRegister "a" 0 0).2)
      "b" 0 1).1 = some "logger already registered" := by
  rfl

/-- Claim C9 (amended): RegisterLogger fails with the "already registered"
error exactly while the recorded queue field is set; a successful registration
records the new queue and adds it to the forwarder; UnregisterLogger removes
the queue from the forwarder but leaves the recorded queue field unchanged, so
once a queue has been registered every later RegisterLogger fails, even after
UnregisterLogger has run. -/
theorem register_logger_single_queue (s : logRegisterState)
    (n n2 : String) (lv lv2 u u2 : Nat) :
    (s.queue = none →
      (RegisterLogger s n lv u).1 = none ∧
      (RegisterLogger s n lv u).2.queue = some { name := n, level := lv, ui := u } ∧
      (RegisterLogger s n lv u).2.forwarder =
        s.forwarder ++ [{ name := n, level := lv, ui := u }]) ∧
    (∀ q, s.queue = some q →
      RegisterLogger s n lv u = (some "logger already registered", s)) ∧
    ((UnregisterLogger s).queue = s.queue) ∧
    (∀ q, s.queue = some q →
      (RegisterLogger (UnregisterLogger s) n2 lv2 u2).1 =
        some "logger already registered") := by
  refine ⟨?_, ?_, ?_, ?_⟩
  · intro h
    simp [RegisterLogger, h]
  · intro q h
    simp [RegisterLogger, h]
  · unfold UnregisterLogger
    cases h : s.queue <;> simp [h]
  · intro q h
    simp [UnregisterLogger, RegisterLogger, h]

theorem register_logger_single_queue_witness :
    (RegisterLogger (UnregisterLogger (RegisterLogger newLogRegister "a" 0 0).2)
      "c" 1 2).1 = some "logger already registered" :=
  ((register_logger_single_queue (RegisterLogger newLogRegister "a" 0 0).2
    "x" "c" 0 1 0 2).2.2.2 { name := "a", level := 0, ui := 0 } rfl)

/-- A trace operation on a fixed pointer: a successful GetOrCreate with nil
parent (no parent-link side effects) or a Forget of some node handle. -/
inductive NCOp where
  | create
  | forgetOp (n : GoNode)

/-- Run a trace of operations on the fixed pointer. -/
def runNC (ptr : BlockPointer) (name : String) : NCState → List NCOp → NCState
  | s, [] => s
  | s, NCOp.create :: ops => runNC ptr name (GetOrCreate s ptr name GoNode.nil).2 ops
  | s, NCOp.forgetOp n :: ops => runNC ptr name (forget s n) ops

/-- Number of GetOrCreate calls in a trace. -/
def countCreates : List NCOp → Nat
  | [] => 0
  | NCOp.create :: ops => countCreates ops + 1
  | NCOp.forgetOp _ :: ops => countCreates ops

/-- A Forget call is effective for ptr when it actually decrements ptr's
entry: the handle is a nodeStandard whose stored pointer is ptr and which is
the node currently registered for ptr. -/
def effectiveForget (s : NCState) (ptr : BlockPointer) (n : GoNode) : Bool :=
  match n with
  | .std nid =>
    decide ((s.heapN nid).pathNode.ptr = ptr) &&
      (match s.nodes ptr with
       | some e => decide (e.node = nid)
       | none => false)
  | _ => false

/-- Number of effective Forget calls along a trace. -/
def countEff (ptr : BlockPointer) (name : String) : NCState → List NCOp → Nat
  | _, [] => 0
  | s, NCOp.create :: ops => countEff ptr name (GetOrCreate s ptr name GoNode.nil).2 ops
  | s, NCOp.forgetOp n :: ops =>
    (if effectiveForget s ptr n then 1 else 0) + countEff ptr name (forget s n) ops

/-- The reference count recorded for ptr (0 when absent). -/
def entryRC (s : NCState) (ptr : BlockPointer) : Int :=
  match s.nodes ptr with
  | none => 0
  | some e => e.refCount

/-- Well-formedness of ptr's entry: if present, its count is at least 1 and
its node's stored pointer is ptr. -/
def InvNC (s : NCState) (ptr : BlockPointer) : Prop :=
  match s.nodes ptr with
  | none => True
  | some e => 1 ≤ e.refCount ∧ (s.heapN e.node).pathNode.ptr = ptr

theorem forgetLocked_heapN (s : NCState) (n : GoNode) :
    (forgetLocked s n).heapN = s.heapN := by
  unfold forgetLocked
  cases n with
  | nil => rfl
  | other k => rfl
  | std nid =>
    dsimp only
    split
    · rfl
    · split
      · rfl
      · split <;> rfl

theorem forgetLocked_nodes_ne (s : NCState) (nid : Nat) (q : BlockPointer)
    (h : q ≠ (s.heapN nid).pathNode.ptr) :
    (forgetLocked s (GoNode.std nid)).nodes q = s.nodes q := by
  unfold forgetLocked
  dsimp only
  split
  · rfl
  · split
    · rfl
    · split <;> simp [upd, h]

/-- Effect of one successful nil-parent GetOrCreate on ptr's entry. -/
theorem getOrCreate_nil_rc (s : NCState) (ptr : BlockPointer) (name : String)
    (hInv : InvNC s ptr) :
    InvNC (GetOrCreate s ptr name GoNode.nil).2 ptr ∧
    entryRC (GetOrCreate s ptr name GoNode.nil).2 ptr = entryRC s ptr + 1 := by
  cases h : s.nodes ptr with
  | some e =>
    have h2 : 1 ≤ e.refCount ∧ (s.heapN e.node).pathNode.ptr = ptr := by
      simpa [InvNC, h] using hInv
    constructor
    · simp [GetOrCreate, h, InvNC, upd_same]
      exact ⟨by omega, h2.2⟩
    · simp [GetOrCreate, h, entryRC, upd_same]
  | none =>
    constructor
    · simp [GetOrCreate, h, InvNC, upd_same, updN_same, newNodeStandard]
    · simp [GetOrCreate, h, entryRC, upd_same]

/-- Effect of one Forget on ptr's entry. -/
theorem forget_rc (s : NCState) (ptr : BlockPointer) (n : GoNode)
    (hInv : InvNC s ptr) :
    InvNC (forget s n) ptr ∧
    entryRC (forget s n) ptr =
      entryRC s ptr - (if effectiveForget s ptr n then 1 else 0) := by
  cases n with
  | nil => exact ⟨hInv, by simp [forget, forgetLocked, effectiveForget]⟩
  | other k => exact ⟨hInv, by simp [forget, forgetLocked, effectiveForget]⟩
  | std nid =>
    by_cases hq : (s.heapN nid).pathNode.ptr = ptr
    · cases h : s.nodes ptr with
      | none =>
        have hfl : forget s (GoNode.std nid) = s := by
          unfold forget forgetLocked
          dsimp only
          rw [hq, h]
        rw [hfl]
        exact ⟨hInv, by simp [effectiveForget, h]⟩
      | some e =>
        have h2 : 1 ≤ e.refCount ∧ (s.heapN e.node).pathNode.ptr = ptr := by
          simpa [InvNC, h] using hInv
        by_cases he : e.node = nid
        · have heff : effectiveForget s ptr (GoNode.std nid) = true := by
            simp [effectiveForget, hq, h, he]
          by_cases hrc : e.refCount - 1 ≤ 0
          · have hfl : forget s (GoNode.std nid) = { s with nodes := upd s.nodes ptr none } := by
              unfold forget forgetLocked
              dsimp only
              rw [hq, h]
              simp [he, hrc]
            rw [hfl]
            constructor
            · simp [InvNC, upd_same]
            · simp [entryRC, upd_same, h, heff]
              omega
          · have hfl : forget s (GoNode.std nid) = { s with nodes := upd s.nodes ptr (some { e with refCount := e.refCount - 1 }) } := by
              unfold forget forgetLocked
              dsimp only
              rw [hq, h]
              simp [he, hrc]
            rw [hfl]
            constructor
            · simp only [InvNC, upd_same]
              exact ⟨by omega, h2.2⟩
            · simp [entryRC, upd_same, h, heff]
        · have heff : effectiveForget s ptr (GoNode.std nid) = false := by
            simp [effectiveForget, h, he]
          have hfl : forget s (GoNode.std nid) = s := by
            unfold forget forgetLocked
            dsimp only
            rw [hq, h]
            simp [he]
          rw [hfl]
          exact ⟨hInv, by simp [heff]⟩
    · have heff : effectiveForget s ptr (GoNode.std nid) = false := by
        simp [effectiveForget, hq]
      have hnodes : (forget s (GoNode.std nid)).nodes ptr = s.nodes ptr :=
        forgetLocked_nodes_ne s nid ptr (fun hc => hq hc.symm)
      have hheap : (forget s (GoNode.std nid)).heapN = s.heapN :=
        forgetLocked_heapN s (GoNode.std nid)
      constructor
      · simp only [InvNC, hnodes, hheap]
        simpa [InvNC] using hInv
      · simp [entryRC, hnodes, heff]

/-- Net effect of a whole trace on ptr's entry. -/
theorem runNC_net (ptr : BlockPointer) (name : String) :
    ∀ (ops : List NCOp) (s : NCState), InvNC s ptr →
      InvNC (runNC ptr name s ops) ptr ∧
      entryRC (runNC ptr name s ops) ptr =
        entryRC s ptr + countCreates ops - countEff ptr name s ops := by
  intro ops
  induction ops with
  | nil =>
    intro s h
    exact ⟨h, by simp [runNC, countCreates, countEff]⟩
  | cons op rest ih =>
    intro s h
    cases op with
    | create =>
      obtain ⟨h1, h2⟩ := getOrCreate_nil_rc s ptr name h
      obtain ⟨h3, h4⟩ := ih _ h1
      refine ⟨by simpa [runNC] using h3, ?_⟩
      simp only [runNC, countCreates, countEff]
      rw [h4, h2]
      push_cast
      ring
    | forgetOp n =>
      obtain ⟨h1, h2⟩ := forget_rc s ptr n h
      obtain ⟨h3, h4⟩ := ih _ h1
      refine ⟨by simpa [runNC] using h3, ?_⟩
      simp only [runNC, countCreates, countEff]
      rw [h4, h2]
      cases heff : effectiveForget s ptr n <;> simp [heff] <;> push_cast <;> ring

/-- Claim C2: starting from a state with no entry for ptr, after any finite
trace of successful nil-parent GetOrCreate calls and Forget calls, an entry
for ptr exists iff the number of GetOrCreate calls exceeds the number of
effective Forget calls; in particular, after equally many creates and
effective forgets the entry is absent. -/
theorem getOrCreate_forget_net_refcount (ptr : BlockPointer) (name : String)
    (s0 : NCState) (ops : List NCOp) (h0 : s0.nodes ptr = none) :
    (((runNC ptr name s0 ops).nodes ptr).isSome ↔
      countEff ptr name s0 ops < countCreates ops) ∧
    (countCreates ops = countEff ptr name s0 ops →
      (runNC ptr name s0 ops).nodes ptr = none) := by
  have hInv : InvNC s0 ptr := by simp [InvNC, h0]
  obtain ⟨h1, h2⟩ := runNC_net ptr name ops s0 hInv
  have h0rc : entryRC s0 ptr = 0 := by simp [entryRC, h0]
  rw [h0rc, zero_add] at h2
  have key : ∀ e, (runNC ptr name s0 ops).nodes ptr = some e → 1 ≤ e.refCount := by
    intro e he
    have := h1
    simp only [InvNC, he] at this
    exact this.1
  constructor
  · constructor
    · intro hs
      cases hfin : (runNC ptr name s0 ops).nodes ptr with
      | none => rw [hfin] at hs; simp at hs
      | some e =>
        have hrc : entryRC (runNC ptr name s0 ops) ptr = e.refCount := by
          simp [entryRC, hfin]
        have h3 := key e hfin
        rw [hrc] at h2
        omega
    · intro hlt
      cases hfin : (runNC ptr name s0 ops).nodes ptr with
      | none =>
        have hrc : entryRC (runNC ptr name s0 ops) ptr = 0 := by
          simp [entryRC, hfin]
        rw [hrc] at h2
        omega
      | some e => simp
  · intro heq
    cases hfin : (runNC ptr name s0 ops).nodes ptr with
    | none => rfl
    | some e =>
      have hrc : entryRC (runNC ptr name s0 ops) ptr = e.refCount := by
        simp [entryRC, hfin]
      have h3 := key e hfin
      rw [hrc] at h2
      omega

theorem getOrCreate_forget_net_refcount_witness :
    ((runNC ⟨5⟩ "a" (newNodeCacheStandard 0 "") [NCOp.create]).nodes ⟨5⟩).isSome :=
  (getOrCreate_forget_net_refcount ⟨5⟩ "a" (newNodeCacheStandard 0 "")
    [NCOp.create] rfl).1.mpr (by decide)

theorem forgetLocked_id (s : NCState) (n : GoNode) :
    (forgetLocked s n).id = s.id := by
  unfold forgetLocked
  cases n with
  | nil => rfl
  | other k => rfl
  | std nid =>
    dsimp only
    split
    · rfl
    · split
      · rfl
      · split <;> rfl

theorem forgetLocked_branch (s : NCState) (n : GoNode) :
    (forgetLocked s n).branch = s.branch := by
  unfold forgetLocked
  cases n with
  | nil => rfl
  | other k => rfl
  | std nid =>
    dsimp only
    split
    · rfl
    · split
      · rfl
      · split <;> rfl

theorem ite_forgetLocked_heapN (s : NCState) (p : GoNode) (c : Prop)
    [Decidable c] : (if c then forgetLocked s p else s).heapN = s.heapN := by
  split
  · exact forgetLocked_heapN s p
  · rfl

theorem ite_forgetLocked_id (s : NCState) (p : GoNode) (c : Prop)
    [Decidable c] : (if c then forgetLocked s p else s).id = s.id := by
  split
  · exact forgetLocked_id s p
  · rfl

theorem ite_forgetLocked_branch (s : NCState) (p : GoNode) (c : Prop)
    [Decidable c] : (if c then forgetLocked s p else s).branch = s.branch := by
  split
  · exact forgetLocked_branch s p
  · rfl

/-- The effect of Unlink on the node store: the unlinked node loses its name
and parent and freezes oldPath, every other node is untouched, and the cache
identity is unchanged. -/
theorem unlink_state (s : NCState) (ptr : BlockPointer) (oldPath : path)
    (e : nodeCacheEntry) (he : s.nodes ptr = some e) :
    (Unlink s ptr oldPath).id = s.id ∧
    (Unlink s ptr oldPath).branch = s.branch ∧
    (Unlink s ptr oldPath).heapN e.node =
      { pathNode := { ptr := (s.heapN e.node).pathNode.ptr, name := "" },
        parent := GoNode.nil, cachedPath := oldPath } ∧
    (∀ m, m ≠ e.node → (Unlink s ptr oldPath).heapN m = s.heapN m) := by
  unfold Unlink
  rw [he]
  dsimp only
  refine ⟨?_, ?_, ?_, ?_⟩
  · split
    · rw [forgetLocked_id]
    · rfl
  · split
    · rw [forgetLocked_branch]
    · rfl
  · split
    · rw [forgetLocked_heapN]
      simp [updN_same]
    · simp [updN_same]
  · intro m hm
    split
    · rw [forgetLocked_heapN]
      simp [updN_ne _ _ _ _ hm]
    · simp [updN_ne _ _ _ _ hm]

/-- upChain s top l: the nodes of l form an upward parent chain whose last
element's parent is top. -/
def upChain (s : NCState) (top : Nat) : List Nat → Bool
  | [] => true
  | [c] => decide ((s.heapN c).parent = GoNode.std top)
  | c :: c2 :: rest =>
    decide ((s.heapN c).parent = GoNode.std c2) && upChain s top (c2 :: rest)

/-- The (pointer, name) segments of the listed nodes, leaf first. -/
def chainSegs (s : NCState) (l : List Nat) : List PathNode :=
  l.map (fun c => (s.heapN c).pathNode)

/-- Walking from the leaf of an attached chain below a node with no parent
and a non-empty cachedPath splices the frozen path in front of the chain's
segments. -/
theorem pathWalk_chain (s : NCState) (top : Nat)
    (hpar : (s.heapN top).parent = GoNode.nil)
    (hcp : (s.heapN top).cachedPath.path ≠ []) :
    ∀ (l : List Nat) (c : Nat), upChain s top (c :: l) = true →
      ∀ (acc : List PathNode) (fuel : Nat), l.length + 2 ≤ fuel →
        pathWalk s fuel (GoNode.std c) acc =
          some { tlf := s.id, branch := s.branch,
                 path := (s.heapN top).cachedPath.path ++
                         (acc ++ chainSegs s (c :: l)).reverse } := by
  intro l
  induction l with
  | nil =>
    intro c hchain acc fuel hfuel
    obtain ⟨f1, rfl⟩ : ∃ f1, fuel = f1 + 2 := ⟨fuel - 2, by omega⟩
    have hc : (s.heapN c).parent = GoNode.std top := by
      simpa [upChain] using hchain
    have hlen : 0 < (s.heapN top).cachedPath.path.length :=
      List.length_pos.mpr hcp
    have hstep : pathWalk s (f1 + 2) (GoNode.std c) acc =
        pathWalk s (f1 + 1) (GoNode.std top) (acc ++ [(s.heapN c).pathNode]) := by
      have hcond : ¬ (GoNode.std top = GoNode.nil ∧
          0 < (s.heapN c).cachedPath.path.length) := by simp
      conv_lhs => simp only [pathWalk]
      rw [hc, if_neg hcond]
    have hne2 : ¬ ((acc ++ [(s.heapN c).pathNode]).length = 0) := by simp
    have hstep2 : pathWalk s (f1 + 1) (GoNode.std top)
        (acc ++ [(s.heapN c).pathNode]) =
        some { tlf := s.id, branch := s.branch,
               path := ((acc ++ [(s.heapN c).pathNode]) ++
                        (s.heapN top).cachedPath.path.reverse).reverse } := by
      conv_lhs => simp only [pathWalk]
      rw [if_pos ⟨hpar, hlen⟩, if_neg hne2]
    rw [hstep, hstep2]
    simp [chainSegs, List.reverse_append]
  | cons c2 rest ih =>
    intro c hchain acc fuel hfuel
    obtain ⟨f1, rfl⟩ : ∃ f1, fuel = f1 + 1 := ⟨fuel - 1, by omega⟩
    have hc : (s.heapN c).parent = GoNode.std c2 := by
      have := hchain
      simp only [upChain, Bool.and_eq_true, decide_eq_true_eq] at this
      exact this.1
    have hrest : upChain s top (c2 :: rest) = true := by
      have := hchain
      simp only [upChain, Bool.and_eq_true, decide_eq_true_eq] at this
      exact this.2
    have hstep : pathWalk s (f1 + 1) (GoNode.std c) acc =
        pathWalk s f1 (GoNode.std c2) (acc ++ [(s.heapN c).pathNode]) := by
      have hcond : ¬ (GoNode.std c2 = GoNode.nil ∧
          0 < (s.heapN c).cachedPath.path.length) := by simp
      conv_lhs => simp only [pathWalk]
      rw [hc, if_neg hcond]
    have hf2 : rest.length + 2 ≤ f1 := by
      simp only [List.length_cons] at hfuel
      omega
    rw [hstep, ih c2 hrest (acc ++ [(s.heapN c).pathNode]) f1 hf2]
    simp [chainSegs]

/-- Claim C3: after Unlink(ptr, oldPath), PathFromNode on the still-cached
node for ptr returns exactly oldPath (including its own tlf/branch tags), and
for any descendant chain still attached below the unlinked node, PathFromNode
returns the cache's tlf/branch with oldPath spliced in as the prefix followed
by the chain's own (pointer, name) segments in root-to-leaf order. -/
theorem unlink_pathFromNode_spliced (s : NCState) (ptr : BlockPointer)
    (oldPath : path) (e : nodeCacheEntry) (he : s.nodes ptr = some e)
    (hne : oldPath.path ≠ []) :
    (∀ fuel, 1 ≤ fuel →
      (PathFromNode (Unlink s ptr oldPath) (GoNode.std e.node) fuel).1 =
        some oldPath) ∧
    (∀ (c : Nat) (l : List Nat) (fuel : Nat),
      upChain (Unlink s ptr oldPath) e.node (c :: l) = true →
      l.length + 2 ≤ fuel →
      (PathFromNode (Unlink s ptr oldPath) (GoNode.std c) fuel).1 =
        some { tlf := s.id, branch := s.branch,
               path := oldPath.path ++
                 (chainSegs (Unlink s ptr oldPath) (c :: l)).reverse }) := by
  obtain ⟨hid, hbr, hnode, _⟩ := unlink_state s ptr oldPath e he
  have hpar : ((Unlink s ptr oldPath).heapN e.node).parent = GoNode.nil := by
    rw [hnode]
  have hcp : ((Unlink s ptr oldPath).heapN e.node).cachedPath.path ≠ [] := by
    rw [hnode]
    exact hne
  have hlen : 0 < ((Unlink s ptr oldPath).heapN e.node).cachedPath.path.length :=
    List.length_pos.mpr hcp
  constructor
  · intro fuel hf
    obtain ⟨f1, rfl⟩ : ∃ f1, fuel = f1 + 1 := ⟨fuel - 1, by omega⟩
    have h0 : (([] : List PathNode)).length = 0 := rfl
    have hstep : pathWalk (Unlink s ptr oldPath) (f1 + 1) (GoNode.std e.node) [] =
        some ((Unlink s ptr oldPath).heapN e.node).cachedPath := by
      conv_lhs => simp only [pathWalk]
      rw [if_pos ⟨hpar, hlen⟩, if_pos h0]
    rw [PathFromNode]
    dsimp only
    rw [hstep, hnode]
  · intro c l fuel hchain hfuel
    have h1 := pathWalk_chain (Unlink s ptr oldPath) e.node hpar hcp l c hchain
      [] fuel hfuel
    rw [PathFromNode]
    dsimp only
    rw [h1, hid, hbr, hnode]
    simp

/-- A two-node cache for the C3 witness: pointer 1 is node 0 (the soon-to-be
unlinked directory), pointer 2 is node 1, a child attached under node 0. -/
def sTwo : NCState :=
  { id := 3, branch := "m",
    nodes := upd (upd (fun _ => none) ⟨1⟩ (some { node := 0, refCount := 2 }))
               ⟨2⟩ (some { node := 1, refCount := 1 }),
    heapN := fun n =>
      if n = 1 then { pathNode := { ptr := ⟨2⟩, name := "c" },
                      parent := GoNode.std 0, cachedPath := pathZero }
      else { pathNode := { ptr := ⟨1⟩, name := "a" },
             parent := GoNode.nil, cachedPath := pathZero },
    nextId := 2 }

/-- The frozen historical path used by the C3 witness. -/
def pRoot : path :=
  { tlf := 7, branch := "b",
    path := [{ ptr := ⟨9⟩, name := "r" }, { ptr := ⟨1⟩, name := "a" }] }

theorem unlink_pathFromNode_spliced_witness :
    (PathFromNode (Unlink sTwo ⟨1⟩ pRoot) (GoNode.std 0) 1).1 = some pRoot ∧
    (PathFromNode (Unlink sTwo ⟨1⟩ pRoot) (GoNode.std 1) 2).1 =
      some { tlf := 3, branch := "m",
             path := pRoot.path ++ (chainSegs (Unlink sTwo ⟨1⟩ pRoot) [1]).reverse } := by
  constructor
  · exact (unlink_pathFromNode_spliced sTwo ⟨1⟩ pRoot { node := 0, refCount := 2 }
      rfl (by decide)).1 1 (by decide)
  · exact (unlink_pathFromNode_spliced sTwo ⟨1⟩ pRoot { node := 0, refCount := 2 }
      rfl (by decide)).2 1 [] 2 (by decide) (by decide)

/-- Field-level description of Request when no record exists for ptr: a fresh
record is allocated at id nextRec with the given priority, the next insertion
number and a single requester, and it is pushed onto the heap and the map. -/
theorem Request_none (s : QState) (c : Nat) (p : Int) (ptr : BlockPointer)
    (b : Nat) (hp : s.ptrs ptr = none) :
    (Request s c p ptr b).2.ptrs = upd s.ptrs ptr (some s.nextRec) ∧
    (Request s c p ptr b).2.nextRec = s.nextRec + 1 ∧
    (Request s c p ptr b).2.insertionCount = s.insertionCount + 1 ∧
    (Request s c p ptr b).2.heap = s.heap ++ [s.nextRec] ∧
    (Request s c p ptr b).2.dispatched = s.dispatched ∧
    (Request s c p ptr b).2.nextCh = s.nextCh + 1 ∧
    (∀ x, x ≠ s.nextRec → (Request s c p ptr b).2.recs x = s.recs x) ∧
    ((Request s c p ptr b).2.recs s.nextRec).insertionOrder = s.insertionCount ∧
    ((Request s c p ptr b).2.recs s.nextRec).requests =
      [{ ctx := c, block := b, doneCh := s.nextCh }] ∧
    ((Request s c p ptr b).2.recs s.nextRec).priority = p := by
  refine ⟨?_, ?_, ?_, ?_, ?_, ?_, ?_, ?_, ?_, ?_⟩
  · simp [Request, hp]
  · simp [Request, hp]
  · simp [Request, hp]
  · simp [Request, hp]
  · simp [Request, hp]
  · simp [Request, hp]
  · intro x hx
    simp only [Request, hp]
    exact updN_ne _ _ _ _ hx
  · simp only [Request, hp]
    rw [updN_same, if_neg (lt_irrefl p)]
  · simp only [Request, hp]
    rw [updN_same, if_neg (lt_irrefl p)]
    simp
  · simp only [Request, hp]
    rw [updN_same, if_neg (lt_irrefl p)]

/-- Field-level description of Request when a record already exists for ptr:
only that record changes — one requester appended, priority raised to p when
strictly higher — and nothing else in the state moves. -/
theorem Request_some (s : QState) (c : Nat) (p : Int) (ptr : BlockPointer)
    (b : Nat) (rid : Nat) (hp : s.ptrs ptr = some rid) :
    (Request s c p ptr b).2.ptrs = s.ptrs ∧
    (Request s c p ptr b).2.nextRec = s.nextRec ∧
    (Request s c p ptr b).2.insertionCount = s.insertionCount ∧
    (Request s c p ptr b).2.heap = s.heap ∧
    (Request s c p ptr b).2.dispatched = s.dispatched ∧
    (Request s c p ptr b).2.nextCh = s.nextCh + 1 ∧
    (∀ x, x ≠ rid → (Request s c p ptr b).2.recs x = s.recs x) ∧
    ((Request s c p ptr b).2.recs rid).insertionOrder =
      (s.recs rid).insertionOrder ∧
    ((Request s c p ptr b).2.recs rid).requests =
      (s.recs rid).requests ++ [{ ctx := c, block := b, doneCh := s.nextCh }] ∧
    ((Request s c p ptr b).2.recs rid).priority =
      (if (s.recs rid).priority < p then p else (s.recs rid).priority) := by
  refine ⟨?_, ?_, ?_, ?_, ?_, ?_, ?_, ?_, ?_, ?_⟩
  · simp [Request, hp]
  · simp [Request, hp]
  · simp [Request, hp]
  · simp [Request, hp]
  · simp [Request, hp]
  · simp [Request, hp]
  · intro x hx
    simp only [Request, hp]
    exact updN_ne _ _ _ _ hx
  · simp only [Request, hp]
    rw [updN_same]
    split <;> rfl
  · simp only [Request, hp]
    rw [updN_same]
    split <;> rfl
  · simp only [Request, hp]
    rw [updN_same]
    split <;> rfl

/-- Well-formedness of a queue state: heap members and map values are
allocated record ids, heap members carry insertion orders below the global
counter, and distinct heap members have distinct insertion orders. -/
def WFq (s : QState) : Prop :=
  (∀ r ∈ s.heap, r < s.nextRec) ∧
  (∀ p rid, s.ptrs p = some rid → rid < s.nextRec) ∧
  (∀ r ∈ s.heap, (s.recs r).insertionOrder < s.insertionCount) ∧
  (∀ r ∈ s.heap, ∀ q ∈ s.heap, r ≠ q →
    (s.recs r).insertionOrder ≠ (s.recs q).insertionOrder)

theorem WFq_init : WFq newBlockRetrievalQueue := by
  refine ⟨?_, ?_, ?_, ?_⟩
  · intro r hr
    simp [newBlockRetrievalQueue] at hr
  · intro p rid hp
    simp [newBlockRetrievalQueue] at hp
  · intro r hr
    simp [newBlockRetrievalQueue] at hr
  · intro r hr
    simp [newBlockRetrievalQueue] at hr

theorem WFq_step (s : QState) (ev : QEv) (h : WFq s) : WFq (stepQ s ev) := by
  obtain ⟨h1, h2, h3, h4⟩ := h
  cases ev with
  | req c p ptr b =>
    show WFq (Request s c p ptr b).2
    cases hp : s.ptrs ptr with
    | none =>
      obtain ⟨e1, e2, e3, e4, _, _, e7, e8, _, _⟩ := Request_none s c p ptr b hp
      refine ⟨?_, ?_, ?_, ?_⟩
      · intro r hr
        rw [e4] at hr
        rw [e2]
        simp only [List.mem_append, List.mem_singleton] at hr
        rcases hr with hr | rfl
        · exact Nat.lt_succ_of_lt (h1 r hr)
        · exact Nat.lt_succ_self _
      · intro q rid hq
        rw [e1] at hq
        rw [e2]
        by_cases hqp : q = ptr
        · subst hqp
          rw [upd_same] at hq
          injection hq with hq2
          omega
        · rw [upd_ne _ _ _ _ hqp] at hq
          exact Nat.lt_succ_of_lt (h2 q rid hq)
      · intro r hr
        rw [e4] at hr
        rw [e3]
        simp only [List.mem_append, List.mem_singleton] at hr
        rcases hr with hr | rfl
        · rw [e7 r (Nat.ne_of_lt (h1 r hr))]
          exact Nat.lt_succ_of_lt (h3 r hr)
        · rw [e8]
          exact Nat.lt_succ_self _
      · intro r hr q hq hrq
        rw [e4] at hr hq
        simp only [List.mem_append, List.mem_singleton] at hr hq
        rcases hr with hr | rfl <;> rcases hq with hq | rfl
        · rw [e7 r (Nat.ne_of_lt (h1 r hr)), e7 q (Nat.ne_of_lt (h1 q hq))]
          exact h4 r hr q hq hrq
        · rw [e7 r (Nat.ne_of_lt (h1 r hr)), e8]
          exact Nat.ne_of_lt (h3 r hr)
        · rw [e7 q (Nat.ne_of_lt (h1 q hq)), e8]
          exact (Nat.ne_of_lt (h3 q hq)).symm
        · exact absurd rfl hrq
    | some rid =>
      obtain ⟨e1, e2, e3, e4, _, _, e7, e8, _, _⟩ := Request_some s c p ptr b rid hp
      have hins : ∀ x, ((Request s c p ptr b).2.recs x).insertionOrder =
          (s.recs x).insertionOrder := by
        intro x
        by_cases hx : x = rid
        · subst hx
          exact e8
        · rw [e7 x hx]
      refine ⟨?_, ?_, ?_, ?_⟩
      · intro r hr
        rw [e4] at hr
        rw [e2]
        exact h1 r hr
      · intro q rid2 hq
        rw [e1] at hq
        rw [e2]
        exact h2 q rid2 hq
      · intro r hr
        rw [e4] at hr
        rw [e3, hins r]
        exact h3 r hr
      · intro r hr q hq hrq
        rw [e4] at hr hq
        rw [hins r, hins q]
        exact h4 r hr q hq hrq
  | dispatch =>
    show WFq (notifyWorker s)
    unfold notifyWorker
    cases hp : popBest s.recs s.heap with
    | none => exact ⟨h1, h2, h3, h4⟩
    | some d =>
      refine ⟨?_, h2, ?_, ?_⟩
      · intro r hr
        exact h1 r (List.mem_of_mem_erase hr)
      · intro r hr
        exact h3 r (List.mem_of_mem_erase hr)
      · intro r hr q hq hrq
        exact h4 r (List.mem_of_mem_erase hr) q (List.mem_of_mem_erase hq) hrq
  | finalize ptr =>
    show WFq (FinalizeRequest s ptr)
    refine ⟨h1, ?_, h3, h4⟩
    intro q rid hq
    by_cases hqp : q = ptr
    · subst hqp
      have : upd s.ptrs q (none : Option Nat) q = none := upd_same _ _ _
      rw [show (FinalizeRequest s q).ptrs q = upd s.ptrs q none q from rfl,
        this] at hq
      cases hq
    · rw [show (FinalizeRequest s ptr).ptrs q = upd s.ptrs ptr none q from rfl,
        upd_ne _ _ _ _ hqp] at hq
      exact h2 q rid hq

theorem WFq_runQ (evs : List QEv) : ∀ (s : QState), WFq s → WFq (runQ s evs) := by
  induction evs with
  | nil =>
    intro s h
    exact h
  | cons ev rest ih =>
    intro s h
    rw [runQ, List.foldl_cons]
    exact ih (stepQ s ev) (WFq_step s ev h)

theorem WFq_qReach (evs : List QEv) : WFq (qReach evs) :=
  WFq_runQ evs newBlockRetrievalQueue WFq_init

theorem popBest_cons_isSome (recs : Nat → blockRetrieval) (r : Nat)
    (rest : List Nat) : (popBest recs (r :: rest)).isSome := by
  simp only [popBest]
  cases popBest recs rest with
  | none => rfl
  | some b =>
    dsimp only
    split <;> rfl

theorem popBest_eq_none (recs : Nat → blockRetrieval) (l : List Nat)
    (h : popBest recs l = none) : l = [] := by
  cases l with
  | nil => rfl
  | cons r rest =>
    have hs := popBest_cons_isSome recs r rest
    rw [h] at hs
    cases hs

theorem popBest_mem (recs : Nat → blockRetrieval) :
    ∀ (l : List Nat) (d : Nat), popBest recs l = some d → d ∈ l := by
  intro l
  induction l with
  | nil =>
    intro d h
    cases h
  | cons r rest ih =>
    intro d h
    simp only [popBest] at h
    cases hp : popBest recs rest with
    | none =>
      simp only [hp] at h
      injection h with h2
      subst h2
      exact List.mem_cons_self r rest
    | some b =>
      simp only [hp] at h
      split at h
      · injection h with h2
        subst h2
        exact List.mem_cons_self r rest
      · injection h with h2
        subst h2
        exact List.mem_cons_of_mem r (ih b hp)

theorem heapLess_total (a b : blockRetrieval)
    (h : a.insertionOrder ≠ b.insertionOrder) :
    heapLess a b = true ∨ heapLess b a = true := by
  simp only [heapLess, Bool.or_eq_true, Bool.and_eq_true, decide_eq_true_eq]
  omega

theorem heapLess_trans (a b c : blockRetrieval) (h1 : heapLess a b = true)
    (h2 : heapLess b c = true) : heapLess a c = true := by
  simp only [heapLess, Bool.or_eq_true, Bool.and_eq_true, decide_eq_true_eq] at h1 h2 ⊢
  omega

/-- On a list whose members carry pairwise distinct insertion orders, popBest
returns a member that is strictly better (under heapLess) than every other
member. -/
theorem popBest_best (recs : Nat → blockRetrieval) :
    ∀ (l : List Nat),
      (∀ r ∈ l, ∀ q ∈ l, r ≠ q →
        (recs r).insertionOrder ≠ (recs q).insertionOrder) →
      ∀ d, popBest recs l = some d →
        ∀ r ∈ l, r ≠ d → heapLess (recs d) (recs r) = true := by
  intro l
  induction l with
  | nil =>
    intro _ d h
    cases h
  | cons x rest ih =>
    intro hdist d hd r hr hrd
    simp only [popBest] at hd
    cases hp : popBest recs rest with
    | none =>
      simp only [hp] at hd
      injection hd with hd2
      subst hd2
      have hrest := popBest_eq_none recs rest hp
      subst hrest
      rcases List.mem_cons.mp hr with rfl | hr2
      · exact absurd rfl hrd
      · cases hr2
    | some b =>
      simp only [hp] at hd
      have hbmem : b ∈ rest := popBest_mem recs rest b hp
      have hdist2 : ∀ r2 ∈ rest, ∀ q2 ∈ rest, r2 ≠ q2 →
          (recs r2).insertionOrder ≠ (recs q2).insertionOrder := by
        intro r2 hr2 q2 hq2 hne
        exact hdist r2 (List.mem_cons_of_mem x hr2) q2
          (List.mem_cons_of_mem x hq2) hne
      have hbest := ih hdist2 b hp
      split at hd
      case isTrue hxb =>
        injection hd with hd2
        subst hd2
        rcases List.mem_cons.mp hr with rfl | hr2
        · exact absurd rfl hrd
        · by_cases hrb : r = b
          · subst hrb
            exact hxb
          · exact heapLess_trans _ _ _ hxb (hbest r hr2 hrb)
      case isFalse hxb =>
        injection hd with hd2
        subst hd2
        rcases List.mem_cons.mp hr with rfl | hr2
        · have hins := hdist r (List.mem_cons_self r rest) b
            (List.mem_cons_of_mem r hbmem) hrd
          rcases heapLess_total (recs r) (recs b) hins with hx | hb
          · exact absurd hx hxb
          · exact hb
        · exact hbest r hr2 hrd

/-- Claim C5: at any reachable queue state, a dispatcher hand-off pops the
record that is best under the modelled heap ordering — higher priority first,
then lower (earlier-inserted) insertion sequence — removes it from the heap
and appends it to the worker hand-off order. -/
theorem dispatch_order_priority_then_insertion (evs : List QEv) (d : Nat)
    (h : popBest (qReach evs).recs (qReach evs).heap = some d) :
    d ∈ (qReach evs).heap ∧
    (∀ r ∈ (qReach evs).heap, r ≠ d →
      heapLess ((qReach evs).recs d) ((qReach evs).recs r) = true) ∧
    (stepQ (qReach evs) QEv.dispatch).heap = (qReach evs).heap.erase d ∧
    (stepQ (qReach evs) QEv.dispatch).dispatched =
      (qReach evs).dispatched ++ [d] ∧
    (stepQ (qReach evs) QEv.dispatch).ptrs = (qReach evs).ptrs ∧
    (stepQ (qReach evs) QEv.dispatch).recs = (qReach evs).recs := by
  obtain ⟨_, _, _, w4⟩ := WFq_qReach evs
  have hstep : stepQ (qReach evs) QEv.dispatch =
      { qReach evs with heap := (qReach evs).heap.erase d, dispatched := (qReach evs).dispatched ++ [d] } := by
    show notifyWorker (qReach evs) = _
    unfold notifyWorker
    rw [h]
  refine ⟨popBest_mem _ _ _ h, ?_, ?_, ?_, ?_, ?_⟩
  · exact popBest_best (qReach evs).recs (qReach evs).heap w4 d h
  · rw [hstep]
  · rw [hstep]
  · rw [hstep]
  · rw [hstep]

theorem dispatch_order_priority_then_insertion_witness :
    0 ∈ (qReach [QEv.req 0 3 ⟨1⟩ 0, QEv.req 0 1 ⟨2⟩ 0, QEv.req 0 2 ⟨3⟩ 0]).heap ∧
    (qReach [QEv.req 0 3 ⟨1⟩ 0, QEv.req 0 1 ⟨2⟩ 0, QEv.req 0 2 ⟨3⟩ 0,
      QEv.dispatch, QEv.dispatch, QEv.dispatch]).dispatched = [0, 2, 1] :=
  ⟨(dispatch_order_priority_then_insertion
      [QEv.req 0 3 ⟨1⟩ 0, QEv.req 0 1 ⟨2⟩ 0, QEv.req 0 2 ⟨3⟩ 0] 0 (by decide)).1,
   by decide⟩

/-- Claim C6: while a record for ptr is in the map, a further Request for ptr
joins that single record (same id, one requester appended) and raises its
priority exactly when the new request's priority is strictly higher, never
lowering it; moreover across any single event the pointer either keeps the
same record id or loses its map entry, and the record's priority never
decreases while it stays mapped. -/
theorem request_coalesce_priority_monotone (evs : List QEv)
    (ptr : BlockPointer) (rid : Nat) (c : Nat) (p : Int) (b : Nat) (ev : QEv)
    (h : (qReach evs).ptrs ptr = some rid) :
    (Request (qReach evs) c p ptr b).2.ptrs ptr = some rid ∧
    ((Request (qReach evs) c p ptr b).2.recs rid).requests =
      ((qReach evs).recs rid).requests ++
        [{ ctx := c, block := b, doneCh := (qReach evs).nextCh }] ∧
    ((Request (qReach evs) c p ptr b).2.recs rid).priority =
      (if ((qReach evs).recs rid).priority < p then p
       else ((qReach evs).recs rid).priority) ∧
    ((stepQ (qReach evs) ev).ptrs ptr = none ∨
      (stepQ (qReach evs) ev).ptrs ptr = some rid) ∧
    ((stepQ (qReach evs) ev).ptrs ptr = some rid →
      ((qReach evs).recs rid).priority ≤
        ((stepQ (qReach evs) ev).recs rid).priority) := by
  obtain ⟨w1, w2, w3, w4⟩ := WFq_qReach evs
  obtain ⟨e1, e2, e3, e4, e5, e6, e7, e8, e9, e10⟩ :=
    Request_some (qReach evs) c p ptr b rid h
  refine ⟨?_, e9, e10, ?_, ?_⟩
  · rw [e1]
    exact h
  · cases ev with
    | req c2 p2 q b2 =>
      show (Request (qReach evs) c2 p2 q b2).2.ptrs ptr = none ∨
        (Request (qReach evs) c2 p2 q b2).2.ptrs ptr = some rid
      cases hq : (qReach evs).ptrs q with
      | none =>
        obtain ⟨f1, _, _, _, _, _, _, _, _, _⟩ :=
          Request_none (qReach evs) c2 p2 q b2 hq
        right
        have hqp : ptr ≠ q := by
          intro hc
          rw [hc, hq] at h
          cases h
        rw [f1, upd_ne _ _ _ _ hqp]
        exact h
      | some rid2 =>
        obtain ⟨f1, _, _, _, _, _, _, _, _, _⟩ :=
          Request_some (qReach evs) c2 p2 q b2 rid2 hq
        right
        rw [f1]
        exact h
    | dispatch =>
      right
      show (notifyWorker (qReach evs)).ptrs ptr = some rid
      unfold notifyWorker
      cases hp : popBest (qReach evs).recs (qReach evs).heap with
      | none => exact h
      | some dd => exact h
    | finalize q =>
      show (FinalizeRequest (qReach evs) q).ptrs ptr = none ∨
        (FinalizeRequest (qReach evs) q).ptrs ptr = some rid
      by_cases hqp : ptr = q
      · left
        subst hqp
        exact upd_same _ _ _
      · right
        rw [show (FinalizeRequest (qReach evs) q).ptrs ptr =
          upd (qReach evs).ptrs q none ptr from rfl, upd_ne _ _ _ _ hqp]
        exact h
  · intro hmap
    cases ev with
    | req c2 p2 q b2 =>
      show ((qReach evs).recs rid).priority ≤
        ((Request (qReach evs) c2 p2 q b2).2.recs rid).priority
      cases hq : (qReach evs).ptrs q with
      | none =>
        obtain ⟨_, _, _, _, _, _, f7, _, _, _⟩ :=
          Request_none (qReach evs) c2 p2 q b2 hq
        rw [f7 rid (Nat.ne_of_lt (w2 ptr rid h))]
      | some rid2 =>
        obtain ⟨_, _, _, _, _, _, f7, _, _, f10⟩ :=
          Request_some (qReach evs) c2 p2 q b2 rid2 hq
        by_cases hr : rid = rid2
        · subst hr
          rw [f10]
          split
          next h3 => exact le_of_lt h3
          next => exact le_refl _
        · rw [f7 rid hr]
    | dispatch =>
      show ((qReach evs).recs rid).priority ≤
        ((notifyWorker (qReach evs)).recs rid).priority
      unfold notifyWorker
      cases hp : popBest (qReach evs).recs (qReach evs).heap with
      | none => exact le_refl _
      | some dd => exact le_refl _
    | finalize q => exact le_refl _

theorem request_coalesce_priority_monotone_witness :
    ((Request (qReach [QEv.req 0 1 ⟨1⟩ 0]) 0 5 ⟨1⟩ 0).2.recs 0).priority =
      (if ((qReach [QEv.req 0 1 ⟨1⟩ 0]).recs 0).priority < 5 then 5
       else ((qReach [QEv.req 0 1 ⟨1⟩ 0]).recs 0).priority) :=
  (request_coalesce_priority_monotone [QEv.req 0 1 ⟨1⟩ 0] ⟨1⟩ 0 0 5 0
    QEv.dispatch (by decide)).2.2.1

/-- Claim C7 counterexample: after [Request p, dispatch] the single record
(id 0) has been popped off the heap (heap is empty, hand-off order [0]) but it
is still in the map, so a further Request for p appends a second requester to
the already popped record — contradicting the claim that no Request appends to
a record already popped by the dispatcher. -/
theorem request_appends_after_pop_cex :
    (qReach [QEv.req 0 1 ⟨1⟩ 0, QEv.dispatch]).dispatched = [0] ∧
    (qReach [QEv.req 0 1 ⟨1⟩ 0, QEv.dispatch]).heap = [] ∧
    ((qReach [QEv.req 0 1 ⟨1⟩ 0, QEv.dispatch]).recs 0).requests.length = 1 ∧
    (qReach [QEv.req 0 1 ⟨1⟩ 0, QEv.dispatch]).ptrs ⟨1⟩ = some 0 ∧
    ((qReach [QEv.req 0 1 ⟨1⟩ 0, QEv.dispatch,
      QEv.req 1 1 ⟨1⟩ 0]).recs 0).requests.length = 2 := by
  refine ⟨by decide, by decide, by decide, by decide, by decide⟩

/-- Claim C7 (amended): a record accepts new requesters only while its pointer
is still in the map — which lasts from Request until FinalizeRequest, possibly
after the dispatcher has already popped it — and every Request arriving after
FinalizeRequest(ptr) creates a brand-new record (a fresh id with exactly the
one new requester), leaving the prior record's requester list untouched. -/
theorem finalize_then_request_fresh_record (evs : List QEv)
    (ptr : BlockPointer) (rid : Nat) (c : Nat) (p : Int) (b : Nat)
    (h : (qReach evs).ptrs ptr = some rid) :
    (Request (FinalizeRequest (qReach evs) ptr) c p ptr b).2.ptrs ptr =
      some (qReach evs).nextRec ∧
    (qReach evs).nextRec ≠ rid ∧
    ((Request (FinalizeRequest (qReach evs) ptr) c p ptr b).2.recs
      (qReach evs).nextRec).requests =
      [{ ctx := c, block := b, doneCh := (qReach evs).nextCh }] ∧
    ((Request (FinalizeRequest (qReach evs) ptr) c p ptr b).2.recs
      rid).requests = ((qReach evs).recs rid).requests := by
  obtain ⟨w1, w2, w3, w4⟩ := WFq_qReach evs
  have hfin : (FinalizeRequest (qReach evs) ptr).ptrs ptr = none :=
    upd_same _ _ _
  obtain ⟨f1, _, _, _, _, _, f7, _, f9, _⟩ :=
    Request_none (FinalizeRequest (qReach evs) ptr) c p ptr b hfin
  have hne : (qReach evs).nextRec ≠ rid :=
    fun hc => absurd (hc ▸ w2 ptr rid h) (lt_irrefl _)
  refine ⟨?_, hne, ?_, ?_⟩
  · rw [f1]
    exact upd_same _ _ _
  · exact f9
  · rw [f7 rid (fun hc => hne hc.symm)]
    rfl

theorem finalize_then_request_fresh_record_witness :
    ((Request (FinalizeRequest (qReach [QEv.req 0 1 ⟨1⟩ 0]) ⟨1⟩) 1 1 ⟨1⟩ 0).2.recs
      (qReach [QEv.req 0 1 ⟨1⟩ 0]).nextRec).requests =
      [{ ctx := 1, block := 0, doneCh := (qReach [QEv.req 0 1 ⟨1⟩ 0]).nextCh }] :=
  (finalize_then_request_fresh_record [QEv.req 0 1 ⟨1⟩ 0] ⟨1⟩ 0 1 1 0
    (by decide)).2.2.1
